import Mathlib

/-!
Verification of the precise-cache key derivation in
`datashader/cre_cache.py` (`_PreciseCacheLocator`, `PreciseCacheImpl`).

Shallow embedding conventions:
* Python byte strings (`code.co_code`, pickle output) are `List Nat`
  (each entry a byte value).
* Python `str` results (the hex digest, its prefix) are `List Char`.
* A Python `dict` is an association list with unique keys, kept in
  insertion order (CPython dicts preserve insertion order); lookup is
  first-match, assignment overwrites in place or appends.
* A global value (`PyVal`) is one of the shapes the source inspects:
  a bytes object, a `numba.extending._Intrinsic` (carrying
  `_defn.__code__.co_code`), a `numba.core.dispatcher.Dispatcher`
  (carrying `py_func.__code__.co_code`), or a plain object carrying an
  opaque serialized representation together with a flag saying whether
  pickling it succeeds (pickling a Python object either deterministically
  yields bytes or deterministically raises).
-/

namespace CreCache

/-- A Python global value, as classified by `_PreciseCacheLocator.__init__`. -/
inductive PyVal where
  /-- A `bytes` object (e.g. a `co_code` contribution stored into the dict). -/
  | bytes (bs : List Nat) : PyVal
  /-- A `numba.extending._Intrinsic`; the payload is `v._defn.__code__.co_code`. -/
  | intrinsic (defnCode : List Nat) : PyVal
  /-- A `numba.core.dispatcher.Dispatcher`; the payload is
      `v.py_func.__code__.co_code`. -/
  | dispatcher (pyFuncCode : List Nat) : PyVal
  /-- Any other Python object: `repr` is its opaque serialized content,
      `picklable` records whether `numba.core.serialize.dumps` succeeds on it. -/
  | plain (repr : List Nat) (picklable : Bool) : PyVal
deriving DecidableEq, Repr

/-- Python dict lookup `d[k]` / `k in d` on an insertion-ordered
association list (first match; keys are unique in a real dict). -/
def dictLookup (d : List (String × PyVal)) (k : String) : Option PyVal :=
  match d with
  | [] => none
  | (k', v) :: rest => if k' = k then some v else dictLookup rest k

/-- Python dict assignment `d[k] = v`: overwrite in place if the key is
present (keeping its position), otherwise append at the end. -/
def dictSet (d : List (String × PyVal)) (k : String) (v : PyVal) :
    List (String × PyVal) :=
  match d with
  | [] => [(k, v)]
  | (k', v') :: rest =>
    if k' = k then (k, v) :: rest else (k', v') :: dictSet rest k v

/-- Removing every binding of a key from a dict (used to state that an
unpicklable global leaves no trace: compare with the dict without it). -/
def removeKey (k : String) (d : List (String × PyVal)) :
    List (String × PyVal) :=
  match d with
  | [] => []
  | (k', v) :: rest =>
    if k' = k then removeKey k rest else (k', v) :: removeKey k rest

/-!
Model of the external serialization facility `numba.core.serialize.dumps`
(a pickler).  Pickling is deterministic per value; byte strings are
length-delimited, so the encoding of a value is a prefix-free token; a
dict pickles as its items in insertion (iteration) order; pickling a dict
succeeds exactly when pickling each of its values succeeds (keys here are
identifier strings, always picklable).  The exact bytes pickle emits do
not matter to any property below, only these structural facts, so the
encoding is modelled with a unary length prefix.
-/

/-- Length-delimited encoding of a byte string: a unary length prefix
(`1` repeated `bs.length` times, then `0`) followed by the raw bytes.
Prefix-free, hence uniquely decodable, like pickle's framed byte strings. -/
def encBytes (bs : List Nat) : List Nat :=
  List.replicate bs.length 1 ++ 0 :: bs

/-- Length-delimited encoding of an identifier string (a dict key). -/
def encStr (s : String) : List Nat :=
  encBytes (s.data.map Char.toNat)

/-- `dumps` on a single value: a constructor tag followed by the
length-delimited payload; `none` models the pickler raising.  A plain
value pickles iff its `picklable` flag is set; bytes objects and the
wrapper objects pickle by content. -/
def dumpsVal : PyVal → Option (List Nat)
  | .bytes bs => some (0 :: encBytes bs)
  | .intrinsic c => some (1 :: encBytes c)
  | .dispatcher c => some (2 :: encBytes c)
  | .plain r true => some (3 :: encBytes r)
  | .plain _ false => none

/-- `dumps` on a dict: items serialized in insertion (iteration) order,
failing iff serialization of some value fails. -/
def dumpsDict : List (String × PyVal) → Option (List Nat)
  | [] => some []
  | (k, v) :: rest =>
    match dumpsVal v, dumpsDict rest with
    | some bv, some br => some (encStr k ++ bv ++ br)
    | _, _ => none

/-!
Model of `hashlib.sha256(...).hexdigest()`: the full SHA-256 algorithm
(FIPS 180-4) over `Nat` arithmetic, words reduced modulo `2 ^ 32`,
followed by lowercase-hex rendering of the eight digest words.
-/

/-- Reduce to a 32-bit word. -/
def w32 (n : Nat) : Nat := n % 4294967296

/-- Right rotation of a 32-bit word. -/
def rotr (n x : Nat) : Nat := w32 ((x >>> n) ||| (x <<< (32 - n)))

/-- SHA-256 big sigma-0. -/
def bSig0 (x : Nat) : Nat := rotr 2 x ^^^ rotr 13 x ^^^ rotr 22 x

/-- SHA-256 big sigma-1. -/
def bSig1 (x : Nat) : Nat := rotr 6 x ^^^ rotr 11 x ^^^ rotr 25 x

/-- SHA-256 small sigma-0. -/
def sSig0 (x : Nat) : Nat := rotr 7 x ^^^ rotr 18 x ^^^ (x >>> 3)

/-- SHA-256 small sigma-1. -/
def sSig1 (x : Nat) : Nat := rotr 17 x ^^^ rotr 19 x ^^^ (x >>> 10)

/-- SHA-256 choice function. -/
def ch (x y z : Nat) : Nat := (x &&& y) ^^^ ((x ^^^ 4294967295) &&& z)

/-- SHA-256 majority function. -/
def maj (x y z : Nat) : Nat := (x &&& y) ^^^ (x &&& z) ^^^ (y &&& z)

/-- The 64 SHA-256 round constants. -/
def shaK : List Nat :=
  [1116352408, 1899447441, 3049323471, 3921009573,
   961987163, 1508970993, 2453635748, 2870763221,
   3624381080, 310598401, 607225278, 1426881987,
   1925078388, 2162078206, 2614888103, 3248222580,
   3835390401, 4022224774, 264347078, 604807628,
   770255983, 1249150122, 1555081692, 1996064986,
   2554220882, 2821834349, 2952996808, 3210313671,
   3336571891, 3584528711, 113926993, 338241895,
   666307205, 773529912, 1294757372, 1396182291,
   1695183700, 1986661051, 2177026350, 2456956037,
   2730485921, 2820302411, 3259730800, 3345764771,
   3516065817, 3600352804, 4094571909, 275423344,
   430227734, 506948616, 659060556, 883997877,
   958139571, 1322822218, 1537002063, 1747873779,
   1955562222, 2024104815, 2227730452, 2361852424,
   2428436474, 2756734187, 3204031479, 3329325298]

/-- The eight working variables / digest words of SHA-256. -/
structure Hash8 where
  a : Nat
  b : Nat
  c : Nat
  d : Nat
  e : Nat
  f : Nat
  g : Nat
  h : Nat
deriving DecidableEq, Repr

/-- The SHA-256 initial hash value. -/
def shaInit : Hash8 :=
  ⟨1779033703, 3144134277, 1013904242, 2773480762,
   1359893119, 2600822924, 528734635, 1541459225⟩

/-- Merkle–Damgard padding: append `0x80`, zeros up to 56 mod 64, then
the original bit length as eight big-endian bytes; input bytes are
reduced mod 256 first. -/
def sha256pad (msg : List Nat) : List Nat :=
  let m := msg.map (· % 256)
  let L := m.length
  let k := (119 - L % 64) % 64
  let lenBytes := (List.range 8).map (fun i => ((8 * L) >>> (8 * (7 - i))) % 256)
  m ++ 0x80 :: (List.replicate k 0 ++ lenBytes)

/-- Split the padded message into 64-byte blocks (fuel-based structural
recursion so the kernel can evaluate it). -/
def toBlocksF : Nat → List Nat → List (List Nat)
  | 0, _ => []
  | _, [] => []
  | fuel + 1, l => l.take 64 :: toBlocksF fuel (l.drop 64)

/-- Split a byte list into 64-byte blocks. -/
def toBlocks (l : List Nat) : List (List Nat) := toBlocksF (l.length + 1) l

/-- The 64-entry message schedule of a block: 16 big-endian words from
the block bytes, extended by the small-sigma recurrence. -/
def schedule (block : List Nat) : List Nat :=
  let ws0 := (List.range 16).map (fun i =>
    (block.getD (4 * i) 0) * 16777216 + (block.getD (4 * i + 1) 0) * 65536 +
      (block.getD (4 * i + 2) 0) * 256 + block.getD (4 * i + 3) 0)
  (List.range 48).foldl (fun ws _ =>
    let n := ws.length
    ws ++ [w32 (sSig1 (ws.getD (n - 2) 0) + ws.getD (n - 7) 0 +
      sSig0 (ws.getD (n - 15) 0) + ws.getD (n - 16) 0)]) ws0

/-- One SHA-256 compression round. -/
def shaRound (s : Hash8) (kw : Nat × Nat) : Hash8 :=
  let t1 := w32 (s.h + bSig1 s.e + ch s.e s.f s.g + kw.1 + kw.2)
  let t2 := w32 (bSig0 s.a + maj s.a s.b s.c)
  ⟨w32 (t1 + t2), s.a, s.b, s.c, w32 (s.d + t1), s.e, s.f, s.g⟩

/-- Compress one block into the running hash state. -/
def compress (s0 : Hash8) (block : List Nat) : Hash8 :=
  let s := (shaK.zip (schedule block)).foldl shaRound s0
  ⟨w32 (s0.a + s.a), w32 (s0.b + s.b), w32 (s0.c + s.c), w32 (s0.d + s.d),
   w32 (s0.e + s.e), w32 (s0.f + s.f), w32 (s0.g + s.g), w32 (s0.h + s.h)⟩

/-- SHA-256 of a byte string, as the eight digest words. -/
def sha256words (msg : List Nat) : Hash8 :=
  (toBlocks (sha256pad msg)).foldl compress shaInit

/-- The sixteen lowercase hexadecimal digit characters. -/
def hexChars : List Char :=
  ['0', '1', '2', '3'] ++ ['4', '5', '6', '7'] ++
    ['8', '9', 'a', 'b'] ++ ['c', 'd', 'e', 'f']

/-- The lowercase hex digit for a nibble. -/
def hexDigitChar (n : Nat) : Char := hexChars.getD n '0'

/-- Fixed-width (8 character) lowercase hex rendering of a 32-bit word,
most significant nibble first. -/
def hexWord (wd : Nat) : List Char :=
  (List.range 8).map (fun i => hexDigitChar ((wd >>> (4 * (7 - i))) % 16))

/-- `hashlib.sha256(msg).hexdigest()`: the 64-character lowercase hex
digest, as a character sequence. -/
def sha256hex (msg : List Nat) : List Char :=
  let s := sha256words msg
  hexWord s.a ++ hexWord s.b ++ hexWord s.c ++ hexWord s.d ++
    hexWord s.e ++ hexWord s.f ++ hexWord s.g ++ hexWord s.h

/-!
Embedding of `datashader/cre_cache.py`.
-/

/-- The fields of a CPython code object that matter here: `co_code` (the
raw instruction bytes), `co_names` (the tuple of global names referenced
by the instructions), and `co_consts` (the constant pool — read by the
interpreter but never by `_PreciseCacheLocator`). -/
structure Code where
  co_code : List Nat
  co_names : List String
  co_consts : List PyVal
deriving DecidableEq, Repr

/-- A Python function as `_PreciseCacheLocator.__init__` sees it:
`py_func.__code__` and `py_func.__globals__`. -/
structure PyFunc where
  code : Code
  globals : List (String × PyVal)
deriving DecidableEq, Repr

/-- One iteration of the `for k in code.co_names` loop of
`_PreciseCacheLocator.__init__`: skip names absent from the globals,
reduce `_Intrinsic` / `Dispatcher` values to their inner `co_code`
bytes, try `dumps` on any other value and skip it if that raises,
otherwise record the value itself. -/
def usedStep (glbs : List (String × PyVal)) (acc : List (String × PyVal))
    (k : String) : List (String × PyVal) :=
  match dictLookup glbs k with
  | none => acc
  | some (.intrinsic c) => dictSet acc k (.bytes c)
  | some (.dispatcher c) => dictSet acc k (.bytes c)
  | some v =>
    match dumpsVal v with
    | none => acc
    | some _ => dictSet acc k v

/-- The `used_globals` dict built by `_PreciseCacheLocator.__init__`. -/
def usedGlobals (co_names : List String) (glbs : List (String × PyVal)) :
    List (String × PyVal) :=
  co_names.foldl (usedStep glbs) []

/-- The state `_PreciseCacheLocator` ends up with: the function and file
handed to `_UserProvidedCacheLocator.__init__`, and the computed
`_func_hash`. -/
structure PreciseCacheLocator where
  py_func : PyFunc
  py_file : String
  func_hash : List Char
deriving DecidableEq, Repr

/-- `_PreciseCacheLocator.__init__` / `from_function`: build
`used_globals`, serialize it, concatenate `code.co_code` with the
serialized bytes and store the SHA-256 hex digest.  The only fallible
step is the final `dumps(used_globals)`, modelled with `Option`
(`none` = an exception propagating out of `__init__`). -/
def mkPreciseCacheLocator (py_func : PyFunc) (py_file : String) :
    Option PreciseCacheLocator :=
  match dumpsDict (usedGlobals py_func.code.co_names py_func.globals) with
  | none => none
  | some m =>
    some ⟨py_func, py_file, sha256hex (py_func.code.co_code ++ m)⟩

/-- The byte string fed to SHA-256 (`func_bytes` in the source). -/
def funcBytes (py_func : PyFunc) : Option (List Nat) :=
  (dumpsDict (usedGlobals py_func.code.co_names py_func.globals)).map
    (fun m => py_func.code.co_code ++ m)

/-- `_PreciseCacheLocator.get_source_stamp`. -/
def get_source_stamp (l : PreciseCacheLocator) : List Char := l.func_hash

/-- `_PreciseCacheLocator.get_disambiguator`: `self._func_hash[:10]`. -/
def get_disambiguator (l : PreciseCacheLocator) : List Char :=
  l.func_hash.take 10

/-- A cache-locator class, for the strategy lists: either
`_PreciseCacheLocator` or the `i`-th member of numba's
`CompileResultCacheImpl._locator_classes` (those classes live in numba,
outside this repository, so they are opaque here). -/
inductive LocatorClass where
  | preciseCacheLocator : LocatorClass
  | numbaDefault (i : Nat) : LocatorClass
deriving DecidableEq, Repr

/-- `PreciseCacheImpl._locator_classes =
[_PreciseCacheLocator, *CompileResultCacheImpl._locator_classes]`,
parameterized by numba's (external) default list. -/
def preciseCacheImpl_locator_classes (numbaDefaults : List LocatorClass) :
    List LocatorClass :=
  LocatorClass.preciseCacheLocator :: numbaDefaults

/-! Dictionary lemmas. -/

theorem dictLookup_dictSet_self (d : List (String × PyVal)) (k : String)
    (v : PyVal) : dictLookup (dictSet d k v) k = some v := by
  induction d with
  | nil => simp [dictSet, dictLookup]
  | cons p rest ih =>
    obtain ⟨k', v'⟩ := p
    by_cases h : k' = k
    · simp [dictSet, dictLookup, h]
    · simp [dictSet, dictLookup, h, ih]

theorem dictLookup_dictSet_ne (d : List (String × PyVal)) (k k' : String)
    (v : PyVal) (hne : k' ≠ k) :
    dictLookup (dictSet d k' v) k = dictLookup d k := by
  induction d with
  | nil => simp [dictSet, dictLookup, hne]
  | cons p rest ih =>
    obtain ⟨k'', v''⟩ := p
    by_cases h : k'' = k'
    · subst h
      simp [dictSet, dictLookup, hne, Ne.symm hne]
    · simp [dictSet, dictLookup, h, ih]

theorem mem_dictSet {d : List (String × PyVal)} {k : String} {v : PyVal}
    {p : String × PyVal} (hp : p ∈ dictSet d k v) : p ∈ d ∨ p = (k, v) := by
  induction d with
  | nil => simp [dictSet] at hp; simp [hp]
  | cons q rest ih =>
    obtain ⟨k', v'⟩ := q
    by_cases h : k' = k
    · simp [dictSet, h] at hp
      rcases hp with hp | hp
      · right; simp [hp]
      · left; simp [hp]
    · simp [dictSet, h] at hp
      rcases hp with hp | hp
      · left; simp [hp]
      · rcases ih hp with hh | hh
        · left; simp [hh]
        · right; exact hh

theorem dictLookup_removeKey_self (d : List (String × PyVal)) (k : String) :
    dictLookup (removeKey k d) k = none := by
  induction d with
  | nil => simp [removeKey, dictLookup]
  | cons p rest ih =>
    obtain ⟨k', v⟩ := p
    by_cases h : k' = k <;> simp [removeKey, dictLookup, h, ih]

theorem dictLookup_removeKey_ne (d : List (String × PyVal)) (k k' : String)
    (hne : k' ≠ k) : dictLookup (removeKey k d) k' = dictLookup d k' := by
  induction d with
  | nil => simp [removeKey, dictLookup]
  | cons p rest ih =>
    obtain ⟨k'', v⟩ := p
    by_cases h : k'' = k
    · subst h
      simp [removeKey, dictLookup, Ne.symm hne, ih]
    · simp [removeKey, dictLookup, h, ih]

/-! Injectivity of the serialization model.  Each encoded token carries a
unary length prefix, so an encoded token can be split off the front of
any byte stream in exactly one way; from this, equal pickled dicts have
equal contents. -/

theorem replicate_one_split {n m : Nat} {s t : List Nat}
    (h : List.replicate n 1 ++ 0 :: s = List.replicate m 1 ++ 0 :: t) :
    n = m ∧ s = t := by
  induction n generalizing m with
  | zero =>
    cases m with
    | zero => simpa using h
    | succ m => simp [List.replicate_succ] at h
  | succ n ih =>
    cases m with
    | zero => simp [List.replicate_succ] at h
    | succ m =>
      simp only [List.replicate_succ, List.cons_append, List.cons.injEq] at h
      obtain ⟨hn, hs⟩ := ih h.2
      exact ⟨by omega, hs⟩

theorem encBytes_split {a b x y : List Nat}
    (h : encBytes a ++ x = encBytes b ++ y) : a = b ∧ x = y := by
  unfold encBytes at h
  simp only [List.append_assoc, List.cons_append] at h
  obtain ⟨hlen, htail⟩ := replicate_one_split h
  exact List.append_inj htail hlen

theorem charToNat_injective : Function.Injective Char.toNat :=
  fun _ _ h => Char.ext (UInt32.ext h)

theorem encStr_split {s t : String} {x y : List Nat}
    (h : encStr s ++ x = encStr t ++ y) : s = t ∧ x = y := by
  unfold encStr at h
  obtain ⟨hmap, hxy⟩ := encBytes_split h
  refine ⟨?_, hxy⟩
  have hdata : s.data = t.data :=
    List.map_injective_iff.mpr charToNat_injective hmap
  cases s; cases t; exact congrArg String.mk hdata

theorem encBytes_ne_nil (a : List Nat) : encBytes a ≠ [] := by
  unfold encBytes
  cases a <;> simp

theorem dumpsVal_shape {v : PyVal} {s : List Nat} (hv : dumpsVal v = some s) :
    ∃ t p, s = t :: encBytes p := by
  rcases v with bs | c | c | ⟨r, _ | _⟩ <;> simp [dumpsVal] at hv <;>
    exact ⟨_, _, hv.symm⟩

theorem dumpsVal_inj {v w : PyVal} {s : List Nat}
    (hv : dumpsVal v = some s) (hw : dumpsVal w = some s) : v = w := by
  rcases v with bs | c | c | ⟨r, _ | _⟩ <;>
    rcases w with bs' | c' | c' | ⟨r', _ | _⟩ <;>
    simp [dumpsVal] at hv hw <;> subst hv <;>
    simp only [List.cons.injEq] at hw <;> simp at hw <;>
    have := encBytes_split (x := []) (y := [])
      (by simpa using hw.symm) <;>
    simp [this.1]

theorem dumpsVal_split {v w : PyVal} {sv sw x y : List Nat}
    (hv : dumpsVal v = some sv) (hw : dumpsVal w = some sw)
    (h : sv ++ x = sw ++ y) : v = w ∧ x = y := by
  obtain ⟨tv, pv, hsv⟩ := dumpsVal_shape hv
  obtain ⟨tw, pw, hsw⟩ := dumpsVal_shape hw
  subst hsv; subst hsw
  simp only [List.cons_append, List.cons.injEq] at h
  obtain ⟨hp, hxy⟩ := encBytes_split h.2
  refine ⟨dumpsVal_inj hv ?_, hxy⟩
  rw [hw, h.1, hp]

theorem encStr_ne_nil (s : String) : encStr s ≠ [] := by
  unfold encStr
  exact encBytes_ne_nil _

/-- Pickled dicts with the same bytes have the same items: the pickle
stream determines the dict. -/
theorem dumpsDict_inj {d1 d2 : List (String × PyVal)} {bs : List Nat}
    (h1 : dumpsDict d1 = some bs) (h2 : dumpsDict d2 = some bs) :
    d1 = d2 := by
  induction d1 generalizing d2 bs with
  | nil =>
    cases d2 with
    | nil => rfl
    | cons q r2 =>
      obtain ⟨k2, v2⟩ := q
      simp [dumpsDict] at h1
      subst h1
      rcases hv2 : dumpsVal v2 with _ | bv2 <;>
        rcases hr2 : dumpsDict r2 with _ | br2 <;>
        simp [dumpsDict, hv2, hr2] at h2
      exact absurd h2.1 (encStr_ne_nil k2)
  | cons p r1 ih =>
    obtain ⟨k1, v1⟩ := p
    cases d2 with
    | nil =>
      simp [dumpsDict] at h2
      subst h2
      rcases hv1 : dumpsVal v1 with _ | bv1 <;>
        rcases hr1 : dumpsDict r1 with _ | br1 <;>
        simp [dumpsDict, hv1, hr1] at h1
      exact absurd h1.1 (encStr_ne_nil k1)
    | cons q r2 =>
      obtain ⟨k2, v2⟩ := q
      rcases hv1 : dumpsVal v1 with _ | bv1 <;>
        rcases hr1 : dumpsDict r1 with _ | br1 <;>
        simp [dumpsDict, hv1, hr1] at h1
      rcases hv2 : dumpsVal v2 with _ | bv2 <;>
        rcases hr2 : dumpsDict r2 with _ | br2 <;>
        simp [dumpsDict, hv2, hr2] at h2
      subst h1
      rw [← List.append_assoc, ← List.append_assoc] at h2
      obtain ⟨hk, htail⟩ :=
        encStr_split (by simpa [List.append_assoc] using h2)
      obtain ⟨hv, hrest⟩ := dumpsVal_split hv2 hv1 htail
      subst hk; subst hv
      rw [ih hr1 (by rw [hr2, hrest])]

/-! Invariants of the `used_globals` construction. -/

theorem usedStep_lookup_ne (glbs acc : List (String × PyVal))
    (k k' : String) (hne : k' ≠ k) :
    dictLookup (usedStep glbs acc k') k = dictLookup acc k := by
  unfold usedStep
  rcases dictLookup glbs k' with _ | v
  · rfl
  · rcases v with bs | c | c | ⟨r, b⟩
    · rcases hd : dumpsVal (PyVal.bytes bs) with _ | bv <;>
        simp [hd, dictLookup_dictSet_ne _ _ _ _ hne]
    · simp [dictLookup_dictSet_ne _ _ _ _ hne]
    · simp [dictLookup_dictSet_ne _ _ _ _ hne]
    · rcases hd : dumpsVal (PyVal.plain r b) with _ | bv <;>
        simp [hd, dictLookup_dictSet_ne _ _ _ _ hne]

theorem usedStep_congr_lookup (g1 g2 acc : List (String × PyVal))
    (k : String) (h : dictLookup g1 k = dictLookup g2 k) :
    usedStep g1 acc k = usedStep g2 acc k := by
  unfold usedStep
  rw [h]

theorem foldl_usedStep_congr {g1 g2 : List (String × PyVal)}
    (names : List String)
    (h : ∀ k ∈ names, ∀ acc, usedStep g1 acc k = usedStep g2 acc k) :
    ∀ acc, names.foldl (usedStep g1) acc = names.foldl (usedStep g2) acc := by
  induction names with
  | nil => intro acc; rfl
  | cons n ns ih =>
    intro acc
    simp only [List.foldl_cons]
    rw [h n (by simp) acc]
    exact ih (fun k hk acc => h k (by simp [hk]) acc) _

theorem usedStep_dumpable {glbs acc : List (String × PyVal)} {k : String}
    (hacc : ∀ p ∈ acc, (dumpsVal p.2).isSome) :
    ∀ p ∈ usedStep glbs acc k, (dumpsVal p.2).isSome := by
  intro p hp
  unfold usedStep at hp
  rcases hg : dictLookup glbs k with _ | v <;> rw [hg] at hp
  · exact hacc p hp
  · rcases v with bs | c | c | ⟨r, b⟩
    · rcases hd : dumpsVal (PyVal.bytes bs) with _ | bv <;>
        simp [hd] at hp
      · exact hacc p hp
      · rcases mem_dictSet hp with hm | hm
        · exact hacc p hm
        · simp [hm, dumpsVal]
    · simp at hp
      rcases mem_dictSet hp with hm | hm
      · exact hacc p hm
      · simp [hm, dumpsVal]
    · simp at hp
      rcases mem_dictSet hp with hm | hm
      · exact hacc p hm
      · simp [hm, dumpsVal]
    · rcases hd : dumpsVal (PyVal.plain r b) with _ | bv <;>
        simp [hd] at hp
      · exact hacc p hp
      · rcases mem_dictSet hp with hm | hm
        · exact hacc p hm
        · simp [hm, hd]

theorem foldl_usedStep_dumpable {glbs : List (String × PyVal)}
    (names : List String) :
    ∀ acc, (∀ p ∈ acc, (dumpsVal p.2).isSome) →
      ∀ p ∈ names.foldl (usedStep glbs) acc, (dumpsVal p.2).isSome := by
  induction names with
  | nil => intro acc hacc; exact hacc
  | cons n ns ih =>
    intro acc hacc
    simp only [List.foldl_cons]
    exact ih _ (usedStep_dumpable hacc)

theorem usedGlobals_dumpable (names : List String)
    (glbs : List (String × PyVal)) :
    ∀ p ∈ usedGlobals names glbs, (dumpsVal p.2).isSome :=
  foldl_usedStep_dumpable names [] (by simp)

theorem dumpsDict_isSome {d : List (String × PyVal)}
    (h : ∀ p ∈ d, (dumpsVal p.2).isSome) : (dumpsDict d).isSome := by
  induction d with
  | nil => simp [dumpsDict]
  | cons p rest ih =>
    obtain ⟨k, v⟩ := p
    have hv : (dumpsVal v).isSome := h (k, v) (by simp)
    have hr : (dumpsDict rest).isSome :=
      ih (fun q hq => h q (by simp [hq]))
    rcases hdv : dumpsVal v with _ | bv
    · rw [hdv] at hv; simp at hv
    · rcases hdr : dumpsDict rest with _ | br
      · rw [hdr] at hr; simp at hr
      · simp [dumpsDict, hdv, hdr]

theorem dumpsDict_usedGlobals_isSome (names : List String)
    (glbs : List (String × PyVal)) :
    (dumpsDict (usedGlobals names glbs)).isSome :=
  dumpsDict_isSome (usedGlobals_dumpable names glbs)

/-- If the loop body always overwrites `k` with the same bytes
contribution, then after the whole loop the dict maps `k` to it
(provided `k` is visited at least once or was already recorded). -/
theorem foldl_usedStep_lookup_const {glbs : List (String × PyVal)}
    {k : String} {c : List Nat}
    (hstep : ∀ acc, usedStep glbs acc k = dictSet acc k (.bytes c)) :
    ∀ (names : List String) (acc : List (String × PyVal)),
      (k ∈ names ∨ dictLookup acc k = some (.bytes c)) →
      dictLookup (names.foldl (usedStep glbs) acc) k = some (.bytes c) := by
  intro names
  induction names with
  | nil =>
    intro acc h
    rcases h with h | h
    · simp at h
    · simpa using h
  | cons n ns ih =>
    intro acc h
    simp only [List.foldl_cons]
    by_cases hn : n = k
    · subst hn
      rw [hstep acc]
      exact ih _ (Or.inr (dictLookup_dictSet_self _ _ _))
    · apply ih
      rcases h with h | h
      · rcases List.mem_cons.mp h with h' | h'
        · exact absurd h'.symm hn
        · exact Or.inl h'
      · exact Or.inr ((usedStep_lookup_ne glbs acc k n hn).trans h)

theorem usedGlobals_lookup_intrinsic {names : List String}
    {glbs : List (String × PyVal)} {k : String} {c : List Nat}
    (hk : k ∈ names) (hg : dictLookup glbs k = some (.intrinsic c)) :
    dictLookup (usedGlobals names glbs) k = some (.bytes c) :=
  foldl_usedStep_lookup_const
    (fun acc => by unfold usedStep; rw [hg]) names [] (Or.inl hk)

theorem usedGlobals_lookup_dispatcher {names : List String}
    {glbs : List (String × PyVal)} {k : String} {c : List Nat}
    (hk : k ∈ names) (hg : dictLookup glbs k = some (.dispatcher c)) :
    dictLookup (usedGlobals names glbs) k = some (.bytes c) :=
  foldl_usedStep_lookup_const
    (fun acc => by unfold usedStep; rw [hg]) names [] (Or.inl hk)

/-- A global whose pickling raises is skipped by the loop exactly as if
it were absent from the globals dict. -/
theorem usedGlobals_removeKey_unpicklable {glbs : List (String × PyVal)}
    {k : String} {r : List Nat}
    (hg : dictLookup glbs k = some (.plain r false)) (names : List String) :
    usedGlobals names glbs = usedGlobals names (removeKey k glbs) := by
  unfold usedGlobals
  refine foldl_usedStep_congr names (fun k' hk' acc => ?_) []
  by_cases hne : k' = k
  · subst hne
    unfold usedStep
    rw [hg, dictLookup_removeKey_self]
    simp [dumpsVal]
  · exact usedStep_congr_lookup _ _ _ _
      (dictLookup_removeKey_ne glbs k k' hne).symm

/-- The `used_globals` dict depends only on the lookups of the names the
instructions reference. -/
theorem usedGlobals_congr {g1 g2 : List (String × PyVal)}
    (names : List String)
    (h : ∀ k ∈ names, dictLookup g1 k = dictLookup g2 k) :
    usedGlobals names g1 = usedGlobals names g2 :=
  foldl_usedStep_congr names
    (fun k hk a => usedStep_congr_lookup _ _ a _ (h k hk)) []

/-- `_PreciseCacheLocator.__init__` never raises: the final
`dumps(used_globals)` succeeds because every stored value pickles. -/
theorem mkPreciseCacheLocator_isSome (f : PyFunc) (file : String) :
    (mkPreciseCacheLocator f file).isSome := by
  unfold mkPreciseCacheLocator
  have h := dumpsDict_usedGlobals_isSome f.code.co_names f.globals
  rcases hd : dumpsDict (usedGlobals f.code.co_names f.globals) with _ | m
  · rw [hd] at h; simp at h
  · simp

/-- The fingerprint is a function of the instruction bytes and the
`used_globals` dict alone. -/
theorem mk_hash_congr {f1 f2 : PyFunc} (file1 file2 : String)
    (hcode : f1.code.co_code = f2.code.co_code)
    (hused : usedGlobals f1.code.co_names f1.globals =
      usedGlobals f2.code.co_names f2.globals) :
    (mkPreciseCacheLocator f1 file1).map PreciseCacheLocator.func_hash =
      (mkPreciseCacheLocator f2 file2).map PreciseCacheLocator.func_hash := by
  unfold mkPreciseCacheLocator
  rw [hused]
  cases hd : dumpsDict (usedGlobals f2.code.co_names f2.globals) with
  | none => simp
  | some m => simp [hcode]

/-- Distinct `used_globals` dicts feed distinct byte strings to SHA-256
(the pickle encoding is uniquely decodable). -/
theorem funcBytes_ne_of_usedGlobals_ne {f1 f2 : PyFunc}
    (hcode : f1.code.co_code = f2.code.co_code)
    (hne : usedGlobals f1.code.co_names f1.globals ≠
      usedGlobals f2.code.co_names f2.globals) :
    funcBytes f1 ≠ funcBytes f2 := by
  unfold funcBytes
  obtain ⟨m1, hm1⟩ := Option.isSome_iff_exists.mp
    (dumpsDict_usedGlobals_isSome f1.code.co_names f1.globals)
  obtain ⟨m2, hm2⟩ := Option.isSome_iff_exists.mp
    (dumpsDict_usedGlobals_isSome f2.code.co_names f2.globals)
  rw [hm1, hm2]
  simp only [Option.map_some', Option.some.injEq, ne_eq]
  intro h
  rw [hcode] at h
  have hm : m1 = m2 := List.append_cancel_left h
  exact hne (dumpsDict_inj hm1 (hm ▸ hm2))

/-- The hex digest always has 64 characters. -/
theorem sha256hex_length (msg : List Nat) : (sha256hex msg).length = 64 := by
  have hw : ∀ wd : Nat, (hexWord wd).length = 8 := by
    intro wd
    simp [hexWord]
  simp [sha256hex, hw]

theorem hexDigitChar_mod_mem (n : Nat) : hexDigitChar (n % 16) ∈ hexChars := by
  have hlt : n % 16 < 16 := Nat.mod_lt _ (by norm_num)
  have hall : ∀ m, m < 16 → hexDigitChar m ∈ hexChars := by decide
  exact hall _ hlt

/-- Every character of the hex digest is a lowercase hex digit. -/
theorem sha256hex_mem_hexChars (msg : List Nat) :
    ∀ c ∈ sha256hex msg, c ∈ hexChars := by
  have hw : ∀ (wd : Nat) (c : Char), c ∈ hexWord wd → c ∈ hexChars := by
    intro wd c hc
    simp only [hexWord, List.mem_map, List.mem_range] at hc
    obtain ⟨i, _, hi⟩ := hc
    rw [← hi]
    exact hexDigitChar_mod_mem _
  intro c hc
  simp only [sha256hex, List.mem_append] at hc
  rcases hc with ((((((h | h) | h) | h) | h) | h) | h) | h <;> exact hw _ _ h

/-!
The claims.
-/

/-- C1: for every callable unit accepted by `_PreciseCacheLocator.__init__`,
the stored `_func_hash` is the lowercase hexadecimal SHA-256 digest of
`code.co_code` concatenated with the serialized bytes of the
name-to-contribution mapping of its referenced globals, and
`get_source_stamp()` returns exactly this string. -/
theorem c1_func_hash_is_digest_of_code_and_used_globals
    (f : PyFunc) (file : String) :
    (mkPreciseCacheLocator f file).map PreciseCacheLocator.func_hash =
      (dumpsDict (usedGlobals f.code.co_names f.globals)).map
        (fun m => sha256hex (f.code.co_code ++ m))
    ∧ (mkPreciseCacheLocator f file).map get_source_stamp =
      (mkPreciseCacheLocator f file).map PreciseCacheLocator.func_hash := by
  unfold mkPreciseCacheLocator
  cases hd : dumpsDict (usedGlobals f.code.co_names f.globals) with
  | none => simp
  | some m => simp [get_source_stamp]

/-- C2: fingerprint derivation never raises as a function of the global
values: the construction always returns a locator, whatever values
(including unpicklable ones, wrapped definitions and compiled
dispatchers) the referenced globals hold. -/
theorem c2_init_never_raises (f : PyFunc) (file : String) :
    (mkPreciseCacheLocator f file).isSome :=
  mkPreciseCacheLocator_isSome f file

/-- C6: `get_disambiguator()` returns exactly the first 10 characters of
`get_source_stamp()`, and both accessors are computed from the stored
fingerprint and nothing else (two locators with equal `_func_hash` agree
on both accessors; the accessors are pure reads of immutable state). -/
theorem c6_disambiguator_is_first_ten_of_stamp (l : PreciseCacheLocator) :
    get_disambiguator l = (get_source_stamp l).take 10
    ∧ ∀ l' : PreciseCacheLocator, l'.func_hash = l.func_hash →
        get_disambiguator l' = get_disambiguator l
        ∧ get_source_stamp l' = get_source_stamp l := by
  refine ⟨rfl, fun l' h => ?_⟩
  simp [get_disambiguator, get_source_stamp, h]

/-- Witness for C6 at concrete locators differing only in `py_file`. -/
theorem c6_witness :
    get_disambiguator
        ⟨⟨⟨[1], [], []⟩, []⟩, "a.py", ['z', 'q', 'x', 'w', 'v', 'u', 't',
          's', 'r', 'p', 'n', 'm']⟩ =
      (get_source_stamp ⟨⟨⟨[1], [], []⟩, []⟩, "a.py", ['z', 'q', 'x', 'w',
        'v', 'u', 't', 's', 'r', 'p', 'n', 'm']⟩).take 10
    ∧ get_disambiguator
        ⟨⟨⟨[2], [], []⟩, []⟩, "b.py", ['z', 'q', 'x', 'w', 'v', 'u', 't',
          's', 'r', 'p', 'n', 'm']⟩ =
      get_disambiguator ⟨⟨⟨[1], [], []⟩, []⟩, "a.py", ['z', 'q', 'x', 'w',
        'v', 'u', 't', 's', 'r', 'p', 'n', 'm']⟩ :=
  ⟨(c6_disambiguator_is_first_ten_of_stamp _).1,
    ((c6_disambiguator_is_first_ten_of_stamp _).2 _ rfl).1⟩

/-- C8: `PreciseCacheImpl._locator_classes` is
`_PreciseCacheLocator` consed onto numba's
`CompileResultCacheImpl._locator_classes`: the precise strategy is the
first-tried entry and every default strategy follows at its original
position. -/
theorem c8_precise_strategy_first (numbaDefaults : List LocatorClass) :
    preciseCacheImpl_locator_classes numbaDefaults =
      LocatorClass.preciseCacheLocator :: numbaDefaults
    ∧ (preciseCacheImpl_locator_classes numbaDefaults).head? =
      some LocatorClass.preciseCacheLocator
    ∧ ∀ i : Nat, (preciseCacheImpl_locator_classes numbaDefaults)[i + 1]? =
      numbaDefaults[i]? := by
  refine ⟨rfl, rfl, fun i => ?_⟩
  simp [preciseCacheImpl_locator_classes]

/-- C9: the fingerprint ignores the constant pool: two functions with the
same `co_code`, the same `co_names` and the same globals but arbitrary
different `co_consts` (and origin files) hash identically. -/
theorem c9_fingerprint_ignores_co_consts (cc : List Nat)
    (names : List String) (consts1 consts2 : List PyVal)
    (glbs : List (String × PyVal)) (file1 file2 : String) :
    (mkPreciseCacheLocator ⟨⟨cc, names, consts1⟩, glbs⟩ file1).map
        PreciseCacheLocator.func_hash =
      (mkPreciseCacheLocator ⟨⟨cc, names, consts2⟩, glbs⟩ file2).map
        PreciseCacheLocator.func_hash :=
  mk_hash_congr file1 file2 rfl rfl

/-- C10: construction always succeeds and yields a 64-character stamp
drawn from the lowercase hex alphabet and a 10-character disambiguator
(in particular also when no globals are referenced). -/
theorem c10_stamp_64_hex_disambiguator_10 (f : PyFunc) (file : String) :
    ∃ l, mkPreciseCacheLocator f file = some l
      ∧ (get_source_stamp l).length = 64
      ∧ (∀ c ∈ get_source_stamp l, c ∈ hexChars)
      ∧ (get_disambiguator l).length = 10 := by
  unfold mkPreciseCacheLocator
  have h := dumpsDict_usedGlobals_isSome f.code.co_names f.globals
  cases hd : dumpsDict (usedGlobals f.code.co_names f.globals) with
  | none => rw [hd] at h; simp at h
  | some m =>
    refine ⟨_, rfl, sha256hex_length _, sha256hex_mem_hexChars _, ?_⟩
    simp [get_disambiguator, List.length_take, sha256hex_length]

/-- C3: a referenced global whose serialization raises is excluded with
no residual trace: derivation completes, and the fingerprint equals the
one computed with that global removed from the globals dict entirely. -/
theorem c3_unpicklable_global_excluded_without_trace (f : PyFunc)
    (file : String) (k : String) (r : List Nat)
    (hbad : dictLookup f.globals k = some (PyVal.plain r false)) :
    (mkPreciseCacheLocator f file).isSome
    ∧ (mkPreciseCacheLocator f file).map PreciseCacheLocator.func_hash =
      (mkPreciseCacheLocator ⟨f.code, removeKey k f.globals⟩ file).map
        PreciseCacheLocator.func_hash :=
  ⟨mkPreciseCacheLocator_isSome f file,
    mk_hash_congr file file rfl
      (usedGlobals_removeKey_unpicklable hbad f.code.co_names)⟩

/-- Witness for C3: a unit referencing one picklable global `g` and one
unpicklable global `h`. -/
theorem c3_witness :
    dictLookup [("g", PyVal.plain [5] true), ("h", PyVal.plain [9] false)]
        "h" = some (PyVal.plain [9] false)
    ∧ ((mkPreciseCacheLocator ⟨⟨[1, 2], ["g", "h"], []⟩,
          [("g", PyVal.plain [5] true), ("h", PyVal.plain [9] false)]⟩
          "f.py").isSome
      ∧ (mkPreciseCacheLocator ⟨⟨[1, 2], ["g", "h"], []⟩,
          [("g", PyVal.plain [5] true), ("h", PyVal.plain [9] false)]⟩
          "f.py").map PreciseCacheLocator.func_hash =
        (mkPreciseCacheLocator ⟨⟨[1, 2], ["g", "h"], []⟩,
          removeKey "h" [("g", PyVal.plain [5] true),
            ("h", PyVal.plain [9] false)]⟩ "f.py").map
          PreciseCacheLocator.func_hash) :=
  ⟨by decide, c3_unpicklable_global_excluded_without_trace
    ⟨⟨[1, 2], ["g", "h"], []⟩,
      [("g", PyVal.plain [5] true), ("h", PyVal.plain [9] false)]⟩
    "f.py" "h" [9] (by decide)⟩

/-- C4: units with identical instruction bytes, identical referenced
names, and identical values at every referenced name fingerprint
identically, whatever their other globals and origin files are. -/
theorem c4_only_referenced_globals_matter (f1 f2 : PyFunc)
    (file1 file2 : String)
    (hcode : f1.code.co_code = f2.code.co_code)
    (hnames : f1.code.co_names = f2.code.co_names)
    (hrefs : ∀ k ∈ f1.code.co_names,
      dictLookup f1.globals k = dictLookup f2.globals k) :
    (mkPreciseCacheLocator f1 file1).map PreciseCacheLocator.func_hash =
      (mkPreciseCacheLocator f2 file2).map PreciseCacheLocator.func_hash := by
  apply mk_hash_congr file1 file2 hcode
  rw [← hnames]
  exact usedGlobals_congr f1.code.co_names hrefs

/-- Witness for C4: an extra unreferenced global `z` and a different
origin file leave the fingerprint unchanged. -/
theorem c4_witness :
    (∀ k ∈ ["g"], dictLookup [("g", PyVal.plain [3] true),
        ("z", PyVal.plain [4] true)] k =
      dictLookup [("g", PyVal.plain [3] true)] k)
    ∧ (mkPreciseCacheLocator ⟨⟨[7], ["g"], []⟩,
        [("g", PyVal.plain [3] true), ("z", PyVal.plain [4] true)]⟩
        "a.py").map PreciseCacheLocator.func_hash =
      (mkPreciseCacheLocator ⟨⟨[7], ["g"], []⟩,
        [("g", PyVal.plain [3] true)]⟩ "b.py").map
        PreciseCacheLocator.func_hash :=
  ⟨by decide, c4_only_referenced_globals_matter
    ⟨⟨[7], ["g"], []⟩,
      [("g", PyVal.plain [3] true), ("z", PyVal.plain [4] true)]⟩
    ⟨⟨[7], ["g"], []⟩, [("g", PyVal.plain [3] true)]⟩
    "a.py" "b.py" rfl rfl (by decide)⟩

/-- Two units with the same globals and the same final mapping contents,
but referencing the names in opposite orders (so the mapping is built in
opposite insertion orders). -/
def orderF1 : PyFunc :=
  ⟨⟨[1], ["a", "b"], []⟩, [("a", PyVal.plain [1] true),
    ("b", PyVal.plain [2] true)]⟩

/-- Same unit as `orderF1` except the names are encountered in the other
order. -/
def orderF2 : PyFunc :=
  ⟨⟨[1], ["b", "a"], []⟩, [("a", PyVal.plain [1] true),
    ("b", PyVal.plain [2] true)]⟩

set_option maxRecDepth 100000 in
/-- C5 fails on the code: the serialization of the collected mapping is a
pickle of an insertion-ordered dict, not canonical in the claimed sense.
`orderF1` and `orderF2` end with mappings that are equal as mappings
(a permutation of the same key-contribution pairs) yet their serialized
mapping bytes differ, and so do the fingerprints. -/
theorem c5_counterexample :
    List.Perm (usedGlobals orderF1.code.co_names orderF1.globals)
      (usedGlobals orderF2.code.co_names orderF2.globals)
    ∧ dumpsDict (usedGlobals orderF1.code.co_names orderF1.globals) ≠
      dumpsDict (usedGlobals orderF2.code.co_names orderF2.globals)
    ∧ (mkPreciseCacheLocator orderF1 "x.py").map
        PreciseCacheLocator.func_hash ≠
      (mkPreciseCacheLocator orderF2 "x.py").map
        PreciseCacheLocator.func_hash := by
  refine ⟨by decide, by decide, ?_⟩
  decide

/-- C5 amended: the serialization is deterministic in the
insertion-ordered mapping: two units whose final name-to-contribution
mappings are equal as ordered association lists (same pairs in the same
encounter order) produce identical serialized mapping bytes and — given
identical instruction bytes — identical fingerprints; in particular the
order of the globals dict itself is irrelevant. -/
theorem c5_amended_serialization_determined_by_ordered_mapping
    (f1 f2 : PyFunc) (file1 file2 : String)
    (hcode : f1.code.co_code = f2.code.co_code)
    (hused : usedGlobals f1.code.co_names f1.globals =
      usedGlobals f2.code.co_names f2.globals) :
    dumpsDict (usedGlobals f1.code.co_names f1.globals) =
      dumpsDict (usedGlobals f2.code.co_names f2.globals)
    ∧ (mkPreciseCacheLocator f1 file1).map PreciseCacheLocator.func_hash =
      (mkPreciseCacheLocator f2 file2).map PreciseCacheLocator.func_hash :=
  ⟨by rw [hused], mk_hash_congr file1 file2 hcode hused⟩

/-- Witness for the amended C5: globals dicts in different orders still
build the same insertion-ordered mapping and the same fingerprint. -/
theorem c5_amended_witness :
    usedGlobals ["a", "b"] [("a", PyVal.plain [1] true),
        ("b", PyVal.plain [2] true)] =
      usedGlobals ["a", "b"] [("b", PyVal.plain [2] true),
        ("a", PyVal.plain [1] true)]
    ∧ (mkPreciseCacheLocator ⟨⟨[1], ["a", "b"], []⟩,
        [("a", PyVal.plain [1] true), ("b", PyVal.plain [2] true)]⟩
        "x.py").map PreciseCacheLocator.func_hash =
      (mkPreciseCacheLocator ⟨⟨[1], ["a", "b"], []⟩,
        [("b", PyVal.plain [2] true), ("a", PyVal.plain [1] true)]⟩
        "y.py").map PreciseCacheLocator.func_hash :=
  ⟨by decide, (c5_amended_serialization_determined_by_ordered_mapping
    ⟨⟨[1], ["a", "b"], []⟩, [("a", PyVal.plain [1] true),
      ("b", PyVal.plain [2] true)]⟩
    ⟨⟨[1], ["a", "b"], []⟩, [("b", PyVal.plain [2] true),
      ("a", PyVal.plain [1] true)]⟩
    "x.py" "y.py" rfl (by decide)).2⟩

/-- A unit whose single referenced global is a wrapped definition with
inner instruction bytes `[1]`. -/
def innerF1 : PyFunc := ⟨⟨[9], ["f"], []⟩, [("f", PyVal.intrinsic [1])]⟩

/-- Same unit as `innerF1` except the inner instruction bytes are `[2]`;
the outer instruction bytes are unchanged. -/
def innerF2 : PyFunc := ⟨⟨[9], ["f"], []⟩, [("f", PyVal.intrinsic [2])]⟩

set_option maxRecDepth 100000 in
/-- C7: a referenced `_Intrinsic` (resp. `Dispatcher`) global contributes
exactly the inner callable's instruction bytes to the hashed mapping;
consequently two units with identical outer instruction bytes whose
inner callables' instruction bytes differ feed different byte strings to
SHA-256 (the fingerprint changes, up to SHA-256 collision resistance),
exhibited concretely on `innerF1` / `innerF2`, whose fingerprints do
differ. -/
theorem c7_nested_callable_contribution :
    (∀ (names : List String) (glbs : List (String × PyVal)) (k : String)
        (c : List Nat), k ∈ names →
        dictLookup glbs k = some (PyVal.intrinsic c) →
        dictLookup (usedGlobals names glbs) k = some (PyVal.bytes c))
    ∧ (∀ (names : List String) (glbs : List (String × PyVal)) (k : String)
        (c : List Nat), k ∈ names →
        dictLookup glbs k = some (PyVal.dispatcher c) →
        dictLookup (usedGlobals names glbs) k = some (PyVal.bytes c))
    ∧ (∀ (f1 f2 : PyFunc) (k : String) (i1 i2 : List Nat),
        f1.code.co_code = f2.code.co_code →
        k ∈ f1.code.co_names → k ∈ f2.code.co_names → i1 ≠ i2 →
        ((dictLookup f1.globals k = some (PyVal.intrinsic i1) ∧
          dictLookup f2.globals k = some (PyVal.intrinsic i2)) ∨
         (dictLookup f1.globals k = some (PyVal.dispatcher i1) ∧
          dictLookup f2.globals k = some (PyVal.dispatcher i2))) →
        funcBytes f1 ≠ funcBytes f2)
    ∧ (mkPreciseCacheLocator innerF1 "x.py").map
        PreciseCacheLocator.func_hash ≠
      (mkPreciseCacheLocator innerF2 "x.py").map
        PreciseCacheLocator.func_hash := by
  refine ⟨fun names glbs k c hk hg => usedGlobals_lookup_intrinsic hk hg,
    fun names glbs k c hk hg => usedGlobals_lookup_dispatcher hk hg,
    ?_, by decide⟩
  intro f1 f2 k i1 i2 hcode hk1 hk2 hne hcase
  apply funcBytes_ne_of_usedGlobals_ne hcode
  intro heq
  rcases hcase with ⟨h1, h2⟩ | ⟨h1, h2⟩
  · have l1 := usedGlobals_lookup_intrinsic hk1 h1
    have l2 := usedGlobals_lookup_intrinsic hk2 h2
    rw [heq, l2] at l1
    exact hne (by simpa using l1.symm)
  · have l1 := usedGlobals_lookup_dispatcher hk1 h1
    have l2 := usedGlobals_lookup_dispatcher hk2 h2
    rw [heq, l2] at l1
    exact hne (by simpa using l1.symm)

/-- Witness for C7: each part applied at concrete units. -/
theorem c7_witness :
    ("f" ∈ ["f"]
      ∧ dictLookup [("f", PyVal.intrinsic [1])] "f" =
        some (PyVal.intrinsic [1])
      ∧ dictLookup (usedGlobals ["f"] [("f", PyVal.intrinsic [1])]) "f" =
        some (PyVal.bytes [1]))
    ∧ ("d" ∈ ["d"]
      ∧ dictLookup [("d", PyVal.dispatcher [3])] "d" =
        some (PyVal.dispatcher [3])
      ∧ dictLookup (usedGlobals ["d"] [("d", PyVal.dispatcher [3])]) "d" =
        some (PyVal.bytes [3]))
    ∧ funcBytes innerF1 ≠ funcBytes innerF2 :=
  ⟨⟨by decide, by decide,
      c7_nested_callable_contribution.1 ["f"] [("f", PyVal.intrinsic [1])]
        "f" [1] (by decide) (by decide)⟩,
    ⟨by decide, by decide,
      c7_nested_callable_contribution.2.1 ["d"]
        [("d", PyVal.dispatcher [3])] "d" [3] (by decide) (by decide)⟩,
    c7_nested_callable_contribution.2.2.1 innerF1 innerF2 "f" [1] [2] rfl
      (by decide) (by decide) (by decide)
      (Or.inl ⟨by decide, by decide⟩)⟩

end CreCache
